import Mathlib

/-!
Verification of `generate_arcade_files.py` against its design document.

The script walks the current directory tree with `os.walk('.')`, skips any
walk root whose path string contains `node_modules` as a substring, prunes
subdirectories named exactly `node_modules`, skips files named
`package-lock.json`, files that vanished before the read, and files whose
extension is in a fixed binary-exclusion list, reads each remaining file in
text mode (UTF-8 with a Latin-1 retry on decode failure), and appends one
text block per file to `arcade_project_complete.txt`, counting the blocks.

The embedding below models the filesystem tree, the walk, the filters, the
text-mode read (decoding followed by universal-newline translation, as
Python text mode performs on POSIX), and the output/console/counter state.
-/

/-- File content as raw bytes, one `Nat` (0..255) per byte. -/
abbrev Bytes := List Nat

/-- The state of one file at the time the walk reaches it: readable with the
given bytes, vanished before the `exists()` check, or failing with an OS
error (carrying the exception message) when opened. -/
inductive FileState where
  | present (bytes : Bytes)
  | vanished
  | unreadable (msg : String)
deriving Repr, DecidableEq

/-- A directory entry that is a file: its name and its state. -/
structure FileEnt where
  name : String
  state : FileState
deriving Repr, DecidableEq

mutual
/-- A directory: name, files, subdirectories. -/
inductive Dir where
  | mk (name : String) (files : List FileEnt) (subdirs : DirList)
/-- A list of subdirectories (mutual with `Dir` so that the walk can be
structurally recursive). -/
inductive DirList where
  | nil
  | cons (d : Dir) (ds : DirList)
end

def Dir.name : Dir → String
  | .mk n _ _ => n

def Dir.files : Dir → List FileEnt
  | .mk _ fs _ => fs

def Dir.subdirs : Dir → DirList
  | .mk _ _ ds => ds

/-- Python's substring test `needle in hay` on strings, over character
lists. -/
def strIn (needle : List Char) : List Char → Bool
  | [] => needle.isEmpty
  | c :: cs => needle.isPrefixOf (c :: cs) || strIn needle cs

/-- The characters of the string Python compares against walk roots. -/
def nmData : List Char := "node_modules".data

/-- The `root` string produced by `os.walk('.')` for the directory reached
through the component names `p`: `"."`, `"./a"`, `"./a/b"`, ... -/
def rootData (p : List String) : List Char :=
  '.' :: (p.map (fun c => '/' :: c.data)).flatten

/-- The display of `(Path(root) / file).relative_to('.')` on POSIX: the
components under the root joined with `/`. -/
def relStr (p : List String) (fname : String) : String :=
  String.intercalate "/" (p ++ [fname])

/-- The `Path.suffix` of the file name, as in Python's pathlib: the
substring from the last dot onward, provided that dot is neither the first
nor the last character of the name; otherwise the empty string. -/
def pySuffix (name : String) : String :=
  let r := name.data.reverse
  let ext := r.takeWhile (fun c => c ≠ '.')
  match r.dropWhile (fun c => c ≠ '.') with
  | '.' :: _ :: _ => if ext.isEmpty then "" else String.mk ('.' :: ext.reverse)
  | _ => ""

/-- The binary-exclusion extension list from line 36 of the script. -/
def exts : List String := [".png", ".jpg", ".jpeg", ".gif", ".ico", ".pem"]

/-- Whether a byte is a UTF-8 continuation byte (`0x80..0xBF`). -/
def isCont (b : Nat) : Bool := 128 ≤ b && b ≤ 191

/-- Strict UTF-8 decoding of a byte list, as Python's `utf-8` codec
performs: rejects stray continuation bytes, overlong forms, surrogate code
points and code points above `0x10FFFF`. Returns `none` exactly when Python
raises `UnicodeDecodeError`. -/
def utf8Decode : List Nat → Option (List Char)
  | [] => some []
  | b :: rest =>
    if b < 128 then
      (utf8Decode rest).map (fun cs => Char.ofNat b :: cs)
    else if b < 194 then none
    else if b ≤ 223 then
      match rest with
      | b1 :: r =>
        if isCont b1 then
          (utf8Decode r).map (fun cs => Char.ofNat ((b - 192) * 64 + (b1 - 128)) :: cs)
        else none
      | _ => none
    else if b ≤ 239 then
      match rest with
      | b1 :: b2 :: r =>
        let okB1 : Bool :=
          if b = 224 then 160 ≤ b1 && b1 ≤ 191
          else if b = 237 then 128 ≤ b1 && b1 ≤ 159
          else isCont b1
        if okB1 && isCont b2 then
          (utf8Decode r).map (fun cs =>
            Char.ofNat ((b - 224) * 4096 + (b1 - 128) * 64 + (b2 - 128)) :: cs)
        else none
      | _ => none
    else if b ≤ 244 then
      match rest with
      | b1 :: b2 :: b3 :: r =>
        let okB1 : Bool :=
          if b = 240 then 144 ≤ b1 && b1 ≤ 191
          else if b = 244 then 128 ≤ b1 && b1 ≤ 143
          else isCont b1
        if okB1 && isCont b2 && isCont b3 then
          (utf8Decode r).map (fun cs =>
            Char.ofNat ((b - 240) * 262144 + (b1 - 128) * 4096 + (b2 - 128) * 64 + (b3 - 128)) :: cs)
        else none
      | _ => none
    else none

/-- Latin-1 decoding: every byte maps to the character with the same code
point; it never fails. -/
def latin1Decode (bs : Bytes) : List Char := bs.map Char.ofNat

/-- Universal-newline translation performed by Python text-mode reads with
the default `newline=None`: `"\r\n"` and lone `"\r"` both become `"\n"`. -/
def nlTranslate : List Char → List Char
  | [] => []
  | [c] => if c = '\r' then ['\n'] else [c]
  | c :: c2 :: rest =>
    if c = '\r' then
      if c2 = '\n' then '\n' :: nlTranslate rest
      else '\n' :: nlTranslate (c2 :: rest)
    else c :: nlTranslate (c2 :: rest)

/-- The result of `open(path, 'r', encoding='utf-8').read()` when it
succeeds: decode, then newline-translate. -/
def textReadUtf8 (bs : Bytes) : Option String :=
  (utf8Decode bs).map (fun cs => String.mk (nlTranslate cs))

/-- The result of the fallback `open(path, 'r', encoding='latin-1').read()`:
always succeeds. -/
def textReadLatin1 (bs : Bytes) : String :=
  String.mk (nlTranslate (latin1Decode bs))

/-- One emitted output block: the directory components of the file under the
root, the file name, and the content string written between the quote
delimiter lines. -/
structure Block where
  dirComps : List String
  fname : String
  content : String
deriving Repr, DecidableEq

/-- The exact text the script writes for one block (its four `write` calls
concatenated): header line, blank line, quote line, content, closing quote
line, trailing blank line. -/
def renderBlock (b : Block) : String :=
  "My " ++ relStr b.dirComps b.fname ++ ":\n\n" ++ "\"\n" ++ b.content ++ "\n\"\n\n"

/-- The characters a block contributes to the output sink. -/
def blockData (b : Block) : List Char := (renderBlock b).data

/-- The run state: characters written to the output sink so far, console
lines printed so far, and the `file_count` counter. -/
structure RunState where
  out : List Char
  console : List String
  count : Nat
deriving Repr, DecidableEq

/-- `outfile.write(s)`. -/
def writeOut (st : RunState) (s : String) : RunState :=
  { st with out := st.out ++ s.data }

/-- `print(s)`. -/
def logLine (st : RunState) (s : String) : RunState :=
  { st with console := st.console ++ [s] }

/-- Processing of a single file inside the walk loop (lines 21-70 of the
script): the `package-lock.json` filter, the `exists()` check, the
binary-extension filter, the UTF-8 read with Latin-1 retry, the four block
writes, the counter increment and the per-file console line. -/
def processFile (p : List String) (st : RunState) (f : FileEnt) : RunState :=
  if f.name = "package-lock.json" then st
  else if f.state = FileState.vanished then st
  else
    let rel := relStr p f.name
    if pySuffix f.name ∈ exts then logLine st ("Skipping binary file: " ++ rel)
    else
      match f.state with
      | .present bytes =>
        match utf8Decode bytes with
        | some cs =>
          let st1 := writeOut st ("My " ++ rel ++ ":\n\n")
          let st2 := writeOut st1 ("\"\n")
          let st3 := writeOut st2 (String.mk (nlTranslate cs))
          let st4 := writeOut st3 ("\n\"\n\n")
          logLine { st4 with count := st4.count + 1 } ("✓ Added: " ++ rel)
        | none =>
          let st1 := writeOut st ("My " ++ rel ++ ":\n\n")
          let st2 := writeOut st1 ("\"\n")
          let st3 := writeOut st2 (textReadLatin1 bytes)
          let st4 := writeOut st3 ("\n\"\n\n")
          logLine { st4 with count := st4.count + 1 } ("✓ Added (latin-1): " ++ rel)
      | .unreadable msg => logLine st ("Error reading " ++ rel ++ ": " ++ msg)
      | .vanished => st

mutual
/-- The walk of one directory reached through components `p` (lines 13-70):
if the walk root string contains `node_modules` as a substring the body is
skipped by `continue` (no file processing and no pruning); otherwise the
files are processed in order and subdirectories named exactly
`node_modules` are pruned. In both cases the walk then descends into the
(possibly pruned) subdirectories. Python prunes by mutating `dirs` before
`os.walk` iterates it; this is modelled by skipping pruned names during the
iteration in `walkDirs`. -/
def walkDir (p : List String) (d : Dir) (st : RunState) : RunState :=
  match d with
  | .mk _ fs sds =>
    let skipped := strIn nmData (rootData p)
    let st1 := if skipped then st else fs.foldl (processFile p) st
    walkDirs p skipped sds st1

/-- Descent into the subdirectories of a directory whose walk root was
skipped (`skipped = true`, no pruning happened) or processed
(`skipped = false`, subdirectories named exactly `node_modules` pruned). -/
def walkDirs (p : List String) (skipped : Bool) (ds : DirList) (st : RunState) : RunState :=
  match ds with
  | .nil => st
  | .cons d rest =>
    let st1 := if !skipped && d.name == "node_modules" then st
               else walkDir (p ++ [d.name]) d st
    walkDirs p skipped rest st1
end

/-- What one file contributes to the output document: `none` when it is
filtered out or fails, otherwise the single block the script writes for it. -/
def fileBlock (p : List String) (f : FileEnt) : Option Block :=
  if f.name = "package-lock.json" then none
  else if f.state = FileState.vanished then none
  else if pySuffix f.name ∈ exts then none
  else
    match f.state with
    | .present bytes =>
      match utf8Decode bytes with
      | some cs => some ⟨p, f.name, String.mk (nlTranslate cs)⟩
      | none => some ⟨p, f.name, textReadLatin1 bytes⟩
    | .vanished => none
    | .unreadable _ => none

/-- The console lines one file produces. -/
def fileLogs (p : List String) (f : FileEnt) : List String :=
  if f.name = "package-lock.json" then []
  else if f.state = FileState.vanished then []
  else if pySuffix f.name ∈ exts then ["Skipping binary file: " ++ relStr p f.name]
  else
    match f.state with
    | .present bytes =>
      match utf8Decode bytes with
      | some _ => ["✓ Added: " ++ relStr p f.name]
      | none => ["✓ Added (latin-1): " ++ relStr p f.name]
    | .vanished => []
    | .unreadable msg => ["Error reading " ++ relStr p f.name ++ ": " ++ msg]

/-- The blocks and console lines a subtree emits. -/
structure Emit where
  blocks : List Block
  logs : List String
deriving Repr, DecidableEq

def Emit.app (a b : Emit) : Emit := ⟨a.blocks ++ b.blocks, a.logs ++ b.logs⟩

mutual
/-- Mirror of `walkDir` that records the emitted blocks and console lines
instead of threading the run state. -/
def traceDir (p : List String) (d : Dir) : Emit :=
  match d with
  | .mk _ fs sds =>
    let skipped := strIn nmData (rootData p)
    let own : Emit := if skipped then ⟨[], []⟩
                      else ⟨fs.filterMap (fileBlock p), (fs.map (fileLogs p)).flatten⟩
    Emit.app own (traceDirs p skipped sds)

/-- Mirror of `walkDirs`. -/
def traceDirs (p : List String) (skipped : Bool) (ds : DirList) : Emit :=
  match ds with
  | .nil => ⟨[], []⟩
  | .cons d rest =>
    let e1 := if !skipped && d.name == "node_modules" then (⟨[], []⟩ : Emit)
              else traceDir (p ++ [d.name]) d
    Emit.app e1 (traceDirs p skipped rest)
end

/-- The effect of `open(output_file, 'w', ...)` on the sink: truncation of
whatever it held before. -/
def openW (_prev : List Char) : List Char := []

/-- The summary lines printed after the traversal (lines 72-83). -/
def summary (n : Nat) : List String :=
  ["\n✅ Output generated: arcade_project_complete.txt",
   "✅ Total files processed: " ++ toString n,
   "\n📁 Project structure processed:",
   "  • All root files",
   "  • src/ directory and all subdirectories",
   "  • public/ directory",
   "  • All configuration files",
   "\n⛔ Files excluded:",
   "  • node_modules/ directory",
   "  • package-lock.json",
   "  • Binary image files (.png, .jpg, .jpeg, .gif, .ico)",
   "  • SSL certificate files (.pem)"]

/-- One call of `generate_arcade_project_files` over the tree rooted at the
working directory, given the previous contents of the output sink (which
mode `'w'` truncates): walk from root `'.'`, then print the summary. -/
def runWith (prev : List Char) (d : Dir) : RunState :=
  let st := walkDir [] d ⟨openW prev, [], 0⟩
  { st with console := st.console ++ summary st.count }

/-- The call including the only fallible run-level step, opening the output
sink: `sinkOk = false` models `open` raising `OSError`, which nothing
catches; otherwise the run is the total function `runWith`. -/
def runExc (sinkOk : Bool) (prev : List Char) (d : Dir) : Except String RunState :=
  if sinkOk then Except.ok (runWith prev d)
  else Except.error "could not open arcade_project_complete.txt"

/-- The blocks one run emits. -/
def blocksRun (d : Dir) : List Block := (traceDir [] d).blocks

/-- The output characters contributed by an optional block. -/
def optData : Option Block → List Char
  | none => []
  | some b => blockData b

/-- The counter increment contributed by an optional block. -/
def optCount : Option Block → Nat
  | none => 0
  | some _ => 1

/-- The concatenation of the rendered blocks. -/
def renderAll (bs : List Block) : List Char := (bs.map blockData).flatten

theorem processFile_eq (p : List String) (st : RunState) (f : FileEnt) :
    processFile p st f =
      ⟨st.out ++ optData (fileBlock p f),
       st.console ++ fileLogs p f,
       st.count + optCount (fileBlock p f)⟩ := by
  rcases f with ⟨name, state⟩
  by_cases hn : name = "package-lock.json"
  · simp [processFile, fileBlock, fileLogs, hn, optData, optCount]
  · cases state with
    | vanished => simp [processFile, fileBlock, fileLogs, hn, optData, optCount]
    | unreadable msg =>
      by_cases hs : pySuffix name ∈ exts
      · simp [processFile, fileBlock, fileLogs, hn, hs, optData, optCount, logLine]
      · simp [processFile, fileBlock, fileLogs, hn, hs, optData, optCount, logLine]
    | present bytes =>
      by_cases hs : pySuffix name ∈ exts
      · simp [processFile, fileBlock, fileLogs, hn, hs, optData, optCount, logLine]
      · cases hd : utf8Decode bytes with
        | some cs =>
          simp [processFile, fileBlock, fileLogs, hn, hs, hd, optData, optCount,
            logLine, writeOut, blockData, renderBlock, textReadLatin1,
            String.data_append, List.append_assoc]
        | none =>
          simp [processFile, fileBlock, fileLogs, hn, hs, hd, optData, optCount,
            logLine, writeOut, blockData, renderBlock, textReadLatin1,
            String.data_append, List.append_assoc]

theorem foldl_processFile (p : List String) (fs : List FileEnt) : ∀ st : RunState,
    fs.foldl (processFile p) st =
      ⟨st.out ++ renderAll (fs.filterMap (fileBlock p)),
       st.console ++ (fs.map (fileLogs p)).flatten,
       st.count + (fs.filterMap (fileBlock p)).length⟩ := by
  induction fs with
  | nil => intro st; simp [renderAll]
  | cons f fs ih =>
    intro st
    rw [List.foldl_cons, ih, processFile_eq]
    cases hb : fileBlock p f with
    | none =>
      simp [renderAll, hb, optData, optCount, List.filterMap_cons, List.append_assoc]
    | some b =>
      simp [renderAll, hb, optData, optCount, List.filterMap_cons, List.append_assoc,
        Nat.add_assoc, Nat.add_comm 1]

mutual
theorem walkDir_eq (p : List String) (d : Dir) : ∀ st : RunState,
    walkDir p d st =
      ⟨st.out ++ renderAll (traceDir p d).blocks,
       st.console ++ (traceDir p d).logs,
       st.count + (traceDir p d).blocks.length⟩ :=
  match d with
  | .mk n fs sds => by
    intro st
    simp only [walkDir, traceDir]
    cases hsk : strIn nmData (rootData p) with
    | true =>
      simp only [hsk, if_true, walkDirs_eq p true sds st]
      simp [Emit.app]
    | false =>
      simp only [hsk, if_false, foldl_processFile, walkDirs_eq p false sds]
      simp [Emit.app, renderAll, List.map_append, List.flatten_append,
        List.length_append, List.append_assoc, Nat.add_assoc]

theorem walkDirs_eq (p : List String) (skipped : Bool) (ds : DirList) : ∀ st : RunState,
    walkDirs p skipped ds st =
      ⟨st.out ++ renderAll (traceDirs p skipped ds).blocks,
       st.console ++ (traceDirs p skipped ds).logs,
       st.count + (traceDirs p skipped ds).blocks.length⟩ :=
  match ds with
  | .nil => by intro st; simp only [walkDirs, traceDirs]; simp [renderAll]
  | .cons d rest => by
    intro st
    simp only [walkDirs, traceDirs]
    cases hpr : (!skipped && d.name == "node_modules") with
    | true =>
      simp only [hpr, if_true, walkDirs_eq p skipped rest st]
      simp [Emit.app]
    | false =>
      simp only [hpr, if_false, walkDir_eq (p ++ [d.name]) d st,
        walkDirs_eq p skipped rest]
      simp [Emit.app, renderAll, List.map_append, List.flatten_append,
        List.length_append, List.append_assoc, Nat.add_assoc]
end

theorem strIn_iff (n h : List Char) : strIn n h = true ↔ n <:+: h := by
  induction h with
  | nil => simp [strIn, List.isEmpty_iff]
  | cons c cs ih =>
    rw [List.infix_cons_iff]
    simp [strIn, Bool.or_eq_true, List.isPrefixOf_iff_prefix, ih]

theorem infix_flatten_of_mem {c : String} : ∀ p : List String, c ∈ p →
    c.data <:+: (p.map (fun s => '/' :: s.data)).flatten := by
  intro p
  induction p with
  | nil => intro hc; cases hc
  | cons d rest ih =>
    intro hc
    rcases List.mem_cons.mp hc with hc | hc
    · exact ⟨['/'], (rest.map (fun s => '/' :: s.data)).flatten, by simp [hc]⟩
    · exact (ih hc).trans (List.suffix_append _ _).isInfix

theorem infix_rootData_of_mem {c : String} {p : List String} (hc : c ∈ p) :
    c.data <:+: rootData p :=
  (infix_flatten_of_mem p hc).trans (List.suffix_append ['.'] _).isInfix

theorem strIn_rootData_of_mem {p : List String} (hm : "node_modules" ∈ p) :
    strIn nmData (rootData p) = true :=
  (strIn_iff _ _).mpr (infix_rootData_of_mem hm)

theorem rootData_append_one (p : List String) (x : String) :
    rootData (p ++ [x]) = rootData p ++ ('/' :: x.data) := by
  simp [rootData]

theorem strIn_child {p : List String} (x : String)
    (h : strIn nmData (rootData p) = true) :
    strIn nmData (rootData (p ++ [x])) = true := by
  rw [strIn_iff] at h ⊢
  rw [rootData_append_one]
  exact h.trans (List.prefix_append _ _).isInfix

mutual
/-- A walk root whose path string contains `node_modules` changes nothing:
its own files are skipped by the `continue`, and every descendant root
extends the path string, so it is skipped as well. -/
theorem walkDir_skip (p : List String) (d : Dir)
    (h : strIn nmData (rootData p) = true) : ∀ st : RunState, walkDir p d st = st :=
  match d with
  | .mk n fs sds => by
    intro st
    simp only [walkDir, h, if_true, walkDirs_skip p sds h st]

theorem walkDirs_skip (p : List String) (ds : DirList)
    (h : strIn nmData (rootData p) = true) : ∀ st : RunState,
    walkDirs p true ds st = st :=
  match ds with
  | .nil => by intro st; simp [walkDirs]
  | .cons d rest => by
    intro st
    rw [walkDirs]
    simp [walkDir_skip (p ++ [d.name]) d (strIn_child d.name h) st,
      walkDirs_skip p rest h]
end

theorem fileBlock_some {p : List String} {f : FileEnt} {b : Block}
    (h : fileBlock p f = some b) :
    b.dirComps = p ∧ b.fname = f.name ∧ f.name ≠ "package-lock.json" := by
  rcases f with ⟨name, state⟩
  by_cases hn : name = "package-lock.json"
  · simp [fileBlock, hn] at h
  · cases state with
    | vanished => simp [fileBlock, hn] at h
    | unreadable msg => simp [fileBlock, hn] at h
    | present bytes =>
      by_cases hs : pySuffix name ∈ exts
      · simp [fileBlock, hn, hs] at h
      · cases hd : utf8Decode bytes with
        | some cs =>
          simp [fileBlock, hn, hs, hd] at h
          simp [← h, hn]
        | none =>
          simp [fileBlock, hn, hs, hd] at h
          simp [← h, hn]

mutual
/-- Every block a subtree emits lies outside `node_modules` directories and
is not `package-lock.json`. -/
theorem traceDir_clean (p : List String) (d : Dir) : ∀ b ∈ (traceDir p d).blocks,
    "node_modules" ∉ b.dirComps ∧ b.fname ≠ "package-lock.json" :=
  match d with
  | .mk n fs sds => by
    intro b hb
    simp only [traceDir] at hb
    cases hsk : strIn nmData (rootData p) with
    | true =>
      rw [hsk] at hb
      simp only [if_true, Emit.app, List.nil_append] at hb
      exact traceDirs_clean p true sds b hb
    | false =>
      rw [hsk] at hb
      simp only [if_false, Emit.app, List.mem_append] at hb
      rcases hb with hb | hb
      · rcases List.mem_filterMap.mp hb with ⟨f, _, hf⟩
        rcases fileBlock_some hf with ⟨hcomp, hname, hplj⟩
        refine ⟨?_, by rw [hname]; exact hplj⟩
        rw [hcomp]
        intro hmem
        rw [strIn_rootData_of_mem hmem] at hsk
        cases hsk
      · exact traceDirs_clean p false sds b hb

theorem traceDirs_clean (p : List String) (skipped : Bool) (ds : DirList) :
    ∀ b ∈ (traceDirs p skipped ds).blocks,
    "node_modules" ∉ b.dirComps ∧ b.fname ≠ "package-lock.json" :=
  match ds with
  | .nil => by intro b hb; simp [traceDirs] at hb
  | .cons d rest => by
    intro b hb
    simp only [traceDirs, Emit.app] at hb
    cases hpr : (!skipped && d.name == "node_modules") with
    | true =>
      simp only [hpr] at hb
      simp at hb
      exact traceDirs_clean p skipped rest b hb
    | false =>
      simp only [hpr] at hb
      simp at hb
      rcases hb with hb | hb
      · exact traceDir_clean (p ++ [d.name]) d b hb
      · exact traceDirs_clean p skipped rest b hb
end

theorem runWith_eq (prev : List Char) (d : Dir) :
    runWith prev d =
      ⟨renderAll (blocksRun d),
       (traceDir [] d).logs ++ summary (blocksRun d).length,
       (blocksRun d).length⟩ := by
  rw [runWith, walkDir_eq [] d]
  simp [openW, blocksRun]

theorem nlTranslate_of_not_mem : ∀ l : List Char, '\r' ∉ l → nlTranslate l = l := by
  intro l
  induction l with
  | nil => intro _; rfl
  | cons c rest ih =>
    intro h
    have hc : c ≠ '\r' := fun e => h (by simp [e])
    have hr : '\r' ∉ rest := fun hm => h (List.mem_cons_of_mem _ hm)
    cases rest with
    | nil => simp [nlTranslate, hc]
    | cons c2 r2 => simp [nlTranslate, hc, ih hr]

theorem infix_renderAll_of_mem {b : Block} : ∀ bs : List Block, b ∈ bs →
    blockData b <:+: renderAll bs := by
  intro bs
  induction bs with
  | nil => intro hb; cases hb
  | cons d rest ih =>
    intro hb
    rcases List.mem_cons.mp hb with hb | hb
    · exact ⟨[], renderAll rest, by simp [renderAll, hb]⟩
    · exact (ih hb).trans (List.suffix_append (blockData d) (renderAll rest)).isInfix

/-- C1: if the root directory is empty at program start, the run produces an
output sink containing zero blocks (no characters at all), the counter is
`0`, and the summary line reports 0 files processed. -/
theorem run_empty_root (prev : List Char) (d : Dir)
    (hf : d.files = []) (hs : d.subdirs = DirList.nil) :
    (runWith prev d).out = [] ∧ (runWith prev d).count = 0 ∧
    "✅ Total files processed: 0" ∈ (runWith prev d).console := by
  rcases d with ⟨n, fs, sds⟩
  simp only [Dir.files] at hf
  simp only [Dir.subdirs] at hs
  subst hf
  subst hs
  refine ⟨rfl, rfl, ?_⟩
  show "✅ Total files processed: 0" ∈ summary 0
  decide

theorem run_empty_root_witness :
    (runWith [] (Dir.mk "." [] DirList.nil)).out = [] ∧
    (runWith [] (Dir.mk "." [] DirList.nil)).count = 0 ∧
    "✅ Total files processed: 0" ∈ (runWith [] (Dir.mk "." [] DirList.nil)).console :=
  run_empty_root [] (Dir.mk "." [] DirList.nil) rfl rfl

/-- C2: the output sink is opened in mode `'w'`, which truncates it, and the
run keeps no other state between calls, so a second run over the unchanged
tree produces a byte-identical output file. -/
theorem run_twice_identical (prev : List Char) (d : Dir) :
    (runWith (runWith prev d).out d).out = (runWith prev d).out := rfl

/-- The tree for the C3 counterexample: the root holds one subdirectory
`node_modulesX` (name not exactly `node_modules`) containing the eligible
file `a.txt` with content `hi`. -/
def c3Tree : Dir :=
  .mk "." [] (.cons (.mk "node_modulesX" [⟨"a.txt", .present [104, 105]⟩] .nil) .nil)

/-- C3 counterexample: `node_modulesX` is a directory whose name is not
exactly `node_modules` (it merely contains it as a substring) holding an
eligible file, yet the run emits nothing, because line 15 of the script
tests `'node_modules' in root`, a substring test on the walk path. -/
theorem node_modules_substring_counterexample :
    fileBlock ["node_modulesX"] ⟨"a.txt", FileState.present [104, 105]⟩ ≠ none ∧
    (runWith [] c3Tree).out = [] ∧ (runWith [] c3Tree).count = 0 := by decide

/-- C3 (amended): a directory is pruned from descent iff its name is exactly
`node_modules`, but file emission is additionally suppressed for every
directory whose walk path contains `node_modules` as a substring — such a
walk step changes nothing at all; for every directory whose walk path does
not contain `node_modules` as a substring, each of its eligible files has
its block emitted in the output. -/
theorem node_modules_substring_amended (p : List String) (d : Dir) (st : RunState) :
    (strIn nmData (rootData p) = true → walkDir p d st = st) ∧
    (strIn nmData (rootData p) = false →
      ∀ f ∈ d.files, ∀ b : Block, fileBlock p f = some b →
        blockData b <:+: (walkDir p d st).out) := by
  constructor
  · intro h
    exact walkDir_skip p d h st
  · intro h f hf b hb
    rcases d with ⟨n, fs, sds⟩
    simp only [Dir.files] at hf
    rw [walkDir_eq]
    have hbmem : b ∈ (traceDir p (Dir.mk n fs sds)).blocks := by
      simp only [traceDir, h, Emit.app]
      simp
      exact Or.inl ⟨f, hf, hb⟩
    exact (infix_renderAll_of_mem _ hbmem).trans (List.suffix_append st.out _).isInfix

/-- The directory used for the skip half of the C3 witness, placed at walk
path `./node_modulesX`. -/
def c3SkipDir : Dir := .mk "node_modulesX" [⟨"a.txt", .present [104, 105]⟩] .nil

/-- The directory used for the emission half of the C3 witness. -/
def c3OkDir : Dir := .mk "." [⟨"a.txt", .present [104, 105]⟩] .nil

theorem node_modules_substring_amended_witness :
    walkDir ["node_modulesX"] c3SkipDir ⟨[], [], 0⟩ = ⟨[], [], 0⟩ ∧
    blockData ⟨[], "a.txt", "hi"⟩ <:+: (walkDir [] c3OkDir ⟨[], [], 0⟩).out :=
  ⟨(node_modules_substring_amended ["node_modulesX"] c3SkipDir ⟨[], [], 0⟩).1 (by decide),
   (node_modules_substring_amended [] c3OkDir ⟨[], [], 0⟩).2 (by decide)
     ⟨"a.txt", FileState.present [104, 105]⟩ (by decide) ⟨[], "a.txt", "hi"⟩ (by decide)⟩

/-- C4: for every tree (and previous sink contents), the output is a
concatenation of blocks none of which lies under a directory named
`node_modules` or belongs to a file named `package-lock.json`. -/
theorem no_nm_no_lockfile_blocks (prev : List Char) (d : Dir) :
    ∃ bs : List Block, (runWith prev d).out = renderAll bs ∧
      ∀ b ∈ bs, "node_modules" ∉ b.dirComps ∧ b.fname ≠ "package-lock.json" := by
  refine ⟨blocksRun d, ?_, traceDir_clean [] d⟩
  rw [runWith_eq]

/-- The tree for the C5 counterexample: one readable file whose valid UTF-8
bytes are `a\r\nb`. -/
def c5Tree : Dir := .mk "." [⟨"a.txt", .present [97, 13, 10, 98]⟩] .nil

/-- C5 counterexample: the file bytes `a\r\nb` decode as UTF-8, but the
text-mode read translates the `\r\n` to `\n`, so the emitted block contains
`a\nb` — not the file content verbatim as the claim states. -/
theorem block_verbatim_counterexample :
    utf8Decode [97, 13, 10, 98] = some ['a', '\r', '\n', 'b'] ∧
    (runWith [] c5Tree).out = "My a.txt:\n\n\"\na\nb\n\"\n\n".data ∧
    "My a.txt:\n\n\"\na\nb\n\"\n\n".data ≠ "My a.txt:\n\n\"\na\r\nb\n\"\n\n".data := by
  decide

/-- C5 (amended): for every eligible readable file whose bytes decode as
UTF-8, exactly one block is emitted, with the exact structure header line,
blank line, quote line, content, quote line, blank line; its content is the
decoded text after universal-newline translation (`\r\n` and `\r` become
`\n`), which is the file content verbatim whenever the file contains no
carriage return — in particular a root file `a.txt` with content `hello`
yields exactly `My a.txt:\n\n\"\nhello\n\"\n\n`. -/
theorem block_structure_amended (p : List String) (st : RunState) (f : FileEnt)
    (bytes : Bytes) (cs : List Char)
    (hst : f.state = FileState.present bytes)
    (hn : f.name ≠ "package-lock.json")
    (hs : pySuffix f.name ∉ exts)
    (hd : utf8Decode bytes = some cs) :
    processFile p st f =
      ⟨st.out ++ blockData ⟨p, f.name, String.mk (nlTranslate cs)⟩,
       st.console ++ ["✓ Added: " ++ relStr p f.name],
       st.count + 1⟩ ∧
    ('\r' ∉ cs → String.mk (nlTranslate cs) = String.mk cs) := by
  constructor
  · rcases f with ⟨name, state⟩
    simp only [FileEnt.state] at hst
    subst hst
    simp only [FileEnt.name] at hn hs
    rw [processFile_eq]
    simp [fileBlock, fileLogs, hn, hs, hd, optData, optCount]
  · intro h
    rw [nlTranslate_of_not_mem cs h]

theorem block_structure_amended_witness :
    processFile [] ⟨[], [], 0⟩ ⟨"a.txt", FileState.present [104, 101, 108, 108, 111]⟩ =
      ⟨([] : List Char) ++ blockData ⟨[], "a.txt", String.mk (nlTranslate "hello".data)⟩,
       ([] : List String) ++ ["✓ Added: " ++ relStr [] "a.txt"], 0 + 1⟩ ∧
    ('\r' ∉ "hello".data → String.mk (nlTranslate "hello".data) = String.mk "hello".data) :=
  block_structure_amended [] ⟨[], [], 0⟩ ⟨"a.txt", FileState.present [104, 101, 108, 108, 111]⟩
    [104, 101, 108, 108, 111] "hello".data rfl (by decide) (by decide) (by decide)

/-- C6: a file (readable, not `package-lock.json`) is excluded by the
extension rule exactly when its `Path.suffix` is literally one of `.png`,
`.jpg`, `.jpeg`, `.gif`, `.ico`, `.pem`: exclusion is equivalent to the
processing step doing nothing but printing the `Skipping binary file:`
diagnostic (no block, no counter change); and on any other suffix — such as
the case-different `.PNG` — a block is emitted for the file: its rendering
is appended to the output and the counter is incremented by one. -/
theorem binary_ext_filter (p : List String) (st : RunState) (f : FileEnt) (bytes : Bytes)
    (hn : f.name ≠ "package-lock.json")
    (hst : f.state = FileState.present bytes) :
    (pySuffix f.name ∈ exts ↔
      processFile p st f =
        { st with console := st.console ++ ["Skipping binary file: " ++ relStr p f.name] }) ∧
    (pySuffix f.name ∉ exts → ∃ b : Block, fileBlock p f = some b ∧
      (processFile p st f).out = st.out ++ blockData b ∧
      (processFile p st f).count = st.count + 1) := by
  rcases f with ⟨name, state⟩
  simp only [FileEnt.state] at hst
  subst hst
  simp only [FileEnt.name] at hn ⊢
  constructor
  · constructor
    · intro hs
      simp [processFile, hn, hs, logLine]
    · intro he
      by_contra hs
      have hcount : (processFile p st ⟨name, FileState.present bytes⟩).count = st.count + 1 := by
        rw [processFile_eq]
        cases hd : utf8Decode bytes <;>
          simp [fileBlock, hn, hs, hd, optCount]
      rw [he] at hcount
      simp at hcount
  · intro hs
    cases hd : utf8Decode bytes with
    | some cs =>
      refine ⟨⟨p, name, String.mk (nlTranslate cs)⟩, ?_, ?_, ?_⟩
      · simp [fileBlock, hn, hs, hd]
      · rw [processFile_eq]
        simp [fileBlock, hn, hs, hd, optData]
      · rw [processFile_eq]
        simp [fileBlock, hn, hs, hd, optCount]
    | none =>
      refine ⟨⟨p, name, textReadLatin1 bytes⟩, ?_, ?_, ?_⟩
      · simp [fileBlock, hn, hs, hd]
      · rw [processFile_eq]
        simp [fileBlock, hn, hs, hd, optData]
      · rw [processFile_eq]
        simp [fileBlock, hn, hs, hd, optCount]

theorem binary_ext_filter_witness :
    (pySuffix "logo.png" ∈ exts ∧
      processFile [] ⟨[], [], 0⟩ ⟨"logo.png", FileState.present [1, 2, 3]⟩ =
        { (⟨[], [], 0⟩ : RunState) with
            console := [] ++ ["Skipping binary file: " ++ relStr [] "logo.png"] }) ∧
    (pySuffix "x.PNG" ∉ exts ∧
      ∃ b : Block, fileBlock [] ⟨"x.PNG", FileState.present [104]⟩ = some b ∧
        (processFile [] ⟨[], [], 0⟩ ⟨"x.PNG", FileState.present [104]⟩).out =
          ([] : List Char) ++ blockData b ∧
        (processFile [] ⟨[], [], 0⟩ ⟨"x.PNG", FileState.present [104]⟩).count = 0 + 1) :=
  ⟨⟨by decide,
    (binary_ext_filter [] ⟨[], [], 0⟩ ⟨"logo.png", FileState.present [1, 2, 3]⟩ [1, 2, 3]
      (by decide) rfl).1.mp (by decide)⟩,
   ⟨by decide,
    (binary_ext_filter [] ⟨[], [], 0⟩ ⟨"x.PNG", FileState.present [104]⟩ [104]
      (by decide) rfl).2 (by decide)⟩⟩

/-- The tree for the C7 counterexample: one file whose bytes `FF 0D 0A` are
not valid UTF-8. -/
def c7Tree : Dir := .mk "." [⟨"b.bin", .present [255, 13, 10]⟩] .nil

/-- C7 counterexample: the bytes `FF 0D 0A` fail UTF-8 decoding; Latin-1
decodes them to the three characters `ÿ\r\n`, but the emitted content is the
newline-translated `ÿ\n` — two characters, so the block content is neither
the Latin-1 decoding of the bytes nor one character per byte. -/
theorem latin1_bytecount_counterexample :
    utf8Decode [255, 13, 10] = none ∧
    (latin1Decode [255, 13, 10]).length = 3 ∧
    (runWith [] c7Tree).out =
      ("My b.bin:\n\n\"\n" ++ String.mk [Char.ofNat 255, '\n'] ++ "\n\"\n\n").data ∧
    (nlTranslate (latin1Decode [255, 13, 10])).length ≠ 3 := by
  decide

/-- C7 (amended): for every eligible file whose bytes fail UTF-8 decoding,
the Latin-1 fallback cannot itself fail: exactly one block is emitted whose
content is the universal-newline translation of the Latin-1 decoding of the
bytes, and the console reports the latin-1 path; the Latin-1 decoding
itself is one character per byte, and the emitted content equals it (hence
preserves the byte count) whenever no byte is a carriage return. -/
theorem latin1_fallback_amended (p : List String) (st : RunState) (f : FileEnt)
    (bytes : Bytes)
    (hst : f.state = FileState.present bytes)
    (hn : f.name ≠ "package-lock.json")
    (hs : pySuffix f.name ∉ exts)
    (hd : utf8Decode bytes = none) :
    processFile p st f =
      ⟨st.out ++ blockData ⟨p, f.name, textReadLatin1 bytes⟩,
       st.console ++ ["✓ Added (latin-1): " ++ relStr p f.name],
       st.count + 1⟩ ∧
    (latin1Decode bytes).length = bytes.length ∧
    ('\r' ∉ latin1Decode bytes → textReadLatin1 bytes = String.mk (latin1Decode bytes)) := by
  refine ⟨?_, by simp [latin1Decode], ?_⟩
  · rcases f with ⟨name, state⟩
    simp only [FileEnt.state] at hst
    subst hst
    simp only [FileEnt.name] at hn hs
    rw [processFile_eq]
    simp [fileBlock, fileLogs, hn, hs, hd, optData, optCount]
  · intro h
    rw [textReadLatin1, nlTranslate_of_not_mem _ h]

theorem latin1_fallback_amended_witness :
    processFile [] ⟨[], [], 0⟩ ⟨"cert.bin", FileState.present [255]⟩ =
      ⟨([] : List Char) ++ blockData ⟨[], "cert.bin", textReadLatin1 [255]⟩,
       ([] : List String) ++ ["✓ Added (latin-1): " ++ relStr [] "cert.bin"], 0 + 1⟩ ∧
    (latin1Decode [255]).length = ([255] : Bytes).length ∧
    ('\r' ∉ latin1Decode [255] → textReadLatin1 [255] = String.mk (latin1Decode [255])) :=
  latin1_fallback_amended [] ⟨[], [], 0⟩ ⟨"cert.bin", FileState.present [255]⟩ [255]
    rfl (by decide) (by decide) (by decide)

/-- C8: opening the output sink is the only fatal condition — with the sink
open the run is a total function and returns normally on every tree,
whatever per-file states (vanished, unreadable, undecodable) it contains;
with the sink failing to open the run is an uncaught error; and a file that
no longer exists at read time is skipped silently (no output, no console
line, no counter change) before any read is attempted. -/
theorem run_error_containment (prev : List Char) (d : Dir) :
    runExc true prev d = Except.ok (runWith prev d) ∧
    runExc false prev d = Except.error "could not open arcade_project_complete.txt" ∧
    (∀ (p : List String) (st : RunState) (f : FileEnt),
      f.state = FileState.vanished → processFile p st f = st) := by
  refine ⟨rfl, rfl, ?_⟩
  intro p st f hv
  rcases f with ⟨name, state⟩
  simp only [FileEnt.state] at hv
  subst hv
  by_cases hn : name = "package-lock.json" <;> simp [processFile, hn]

theorem run_error_containment_witness :
    runExc true [] (Dir.mk "." [] DirList.nil) =
      Except.ok (runWith [] (Dir.mk "." [] DirList.nil)) ∧
    processFile [] ⟨[], [], 0⟩ ⟨"ghost.txt", FileState.vanished⟩ = ⟨[], [], 0⟩ :=
  ⟨(run_error_containment [] (Dir.mk "." [] DirList.nil)).1,
   (run_error_containment [] (Dir.mk "." [] DirList.nil)).2.2 [] ⟨[], [], 0⟩
     ⟨"ghost.txt", FileState.vanished⟩ rfl⟩

/-- C9: after every run the counter equals the number of blocks present in
the output document (the output is exactly the concatenation of those
blocks), and the summary reports that number. -/
theorem count_matches_blocks (prev : List Char) (d : Dir) :
    (runWith prev d).count = (blocksRun d).length ∧
    (runWith prev d).out = renderAll (blocksRun d) ∧
    ("✅ Total files processed: " ++ toString ((blocksRun d).length))
      ∈ (runWith prev d).console := by
  rw [runWith_eq]
  refine ⟨rfl, rfl, ?_⟩
  simp [summary]

/-- C10: per file, either nothing is written or exactly one complete block
is appended (content is fully read and decoded before the first write, so a
failing read or decode contributes no characters); consequently the whole
output is a concatenation of complete rendered blocks. -/
theorem output_complete_blocks :
    (∀ (p : List String) (st : RunState) (f : FileEnt),
      (processFile p st f).out = st.out ∨
      ∃ b : Block, fileBlock p f = some b ∧
        (processFile p st f).out = st.out ++ blockData b) ∧
    (∀ (prev : List Char) (d : Dir), (runWith prev d).out = renderAll (blocksRun d)) := by
  constructor
  · intro p st f
    rw [processFile_eq]
    cases hb : fileBlock p f with
    | none => left; simp [hb, optData]
    | some b => right; exact ⟨b, rfl, by simp [hb, optData]⟩
  · intro prev d
    rw [runWith_eq]
